import Mathlib

/-!
Shallow embedding of the NFT mint server (src/src/server.js).

The server is an HTTP facade over a MongoDB collection (the Mint Registry,
a list of mint documents) and an ethers contract (the Ledger).  Each route
handler is embedded as a pure function from an environment (the behaviour of
the external Ledger and the failure switches of the Registry writes), the
current Registry contents, and the request fields, to an output record
carrying the HTTP response value, the Registry contents afterwards, and the
trace of external operations performed, in order.

Request fields are Option String (JS: a missing body field is undefined;
the handlers test falsiness, so the empty string is also rejected).
Ledger token ids are kept as decimal strings, exactly as the handlers store
them after calling toString on the event argument.  A JS value that can be
undefined (a positional index that falls out of range) is an Option.
Registry reads are modelled as total over the embedded Registry state;
Ledger calls and Registry writes can fail, as the claims require.
-/

namespace NftServer

/-- A document of the mintedObjects collection, as built by the handlers:
fields tokenURI, tokenId, did.  tokenId and did are Option String because
the JS expressions producing them (an indexed access into an array) can be
undefined. -/
structure MintRecord where
  tokenURI : String
  tokenId : Option String
  did : Option String
deriving Repr, DecidableEq

/-- One entry of receipt.logs: its eventName and its argument list,
already stringified (the handlers only ever call toString on args). -/
structure LogEntry where
  eventName : String
  args : List String
deriving Repr, DecidableEq

/-- Outcome of submitting a transaction to the contract: the submission
itself can throw, tx.wait can throw, or the transaction confirms with a
hash and a list of receipt logs. -/
inductive TxOutcome where
  | submitFail
  | confirmFail (txHash : String)
  | confirmed (txHash : String) (logs : List LogEntry)
deriving Repr, DecidableEq

/-- External operations a handler performs, recorded in order:
Registry reads and writes, and Ledger calls. -/
inductive Event where
  | regFindOne (uri : String)
  | regFind (uris : List String)
  | regFindAll
  | regInsertOne (r : MintRecord)
  | regInsertMany (rs : List MintRecord)
  | ledgerMintSubmit (recipient uri did : String)
  | ledgerBatchMintSubmit (recipient : String) (uris dids : List String)
  | ledgerOwnerOf (tokenId : Option String)
  | ledgerIsOwner (claimant tokenId : String)
  | ledgerTransferFrom (src dst tokenId : String)
deriving Repr, DecidableEq

/-- Behaviour of the external collaborators during one request:
what each contract call returns (contract.ownerOf on a JS-undefined token id
throws, hence the Option String argument), the stream of DIDs the random
generator produces, and whether the Registry writes fail. -/
structure Env where
  mintObjectCall : String → String → String → TxOutcome
  mintBatchCall : String → List String → List String → TxOutcome
  ownerOfCall : Option String → Option String
  isOwnerCall : String → String → Option Bool
  transferFromCall : String → String → String → TxOutcome
  didGen : Nat → String
  insertOneFails : Bool
  insertManyFails : Bool

/-- What one handler invocation produces: the response value handed to
res.json, the Registry contents afterwards, and the ordered trace of
external operations. -/
structure HandlerOut (ρ : Type) where
  response : ρ
  registry : List MintRecord
  trace : List Event
deriving Repr, DecidableEq

/-- JS falsiness of an optional string request field: undefined or empty. -/
def isFalsy : Option String → Bool
  | none => true
  | some s => s == ""

/-- Response of POST /mint: 400, the already-minted 200, the minted 200,
or the catch-all 500 whose body is the constant message. -/
inductive MintResponse where
  | invalidRequest
  | alreadyMinted (tokenId : Option String) (owner : String)
  | minted (txHash did tokenId owner : String)
  | serverError (msg : String)
deriving Repr, DecidableEq

/-- receipt.logs.find of the Transfer event, then args[2].toString:
undefined anywhere on that path throws, hence none. -/
def extractTokenId (logs : List LogEntry) : Option String :=
  (logs.find? (fun l => l.eventName == "Transfer")).bind (fun e => e.args[2]?)

/-- POST /mint.  Validates falsiness of both fields; looks the tokenURI up
in the Registry (findOne: first matching document); when found, re-queries
the owner from the Ledger and short-circuits; when absent, generates a DID,
submits mintObject, waits, extracts the token id from the Transfer event,
queries the owner, inserts the new document, and responds.  Every throw is
caught by the single catch, which responds 500 with a constant body. -/
def mintOne (env : Env) (registry : List MintRecord)
    (recipient tokenURI : Option String) : HandlerOut MintResponse :=
  if isFalsy recipient || isFalsy tokenURI then
    ⟨.invalidRequest, registry, []⟩
  else
    let rcpt := recipient.getD ""
    let uri := tokenURI.getD ""
    match registry.find? (fun r => r.tokenURI == uri) with
    | some existing =>
      let tr : List Event := [.regFindOne uri, .ledgerOwnerOf existing.tokenId]
      match env.ownerOfCall existing.tokenId with
      | some owner => ⟨.alreadyMinted existing.tokenId owner, registry, tr⟩
      | none => ⟨.serverError "Failed to mint object", registry, tr⟩
    | none =>
      let did := env.didGen 0
      match env.mintObjectCall rcpt uri did with
      | .submitFail =>
        ⟨.serverError "Failed to mint object", registry,
          [.regFindOne uri, .ledgerMintSubmit rcpt uri did]⟩
      | .confirmFail _ =>
        ⟨.serverError "Failed to mint object", registry,
          [.regFindOne uri, .ledgerMintSubmit rcpt uri did]⟩
      | .confirmed txHash logs =>
        match extractTokenId logs with
        | none =>
          ⟨.serverError "Failed to mint object", registry,
            [.regFindOne uri, .ledgerMintSubmit rcpt uri did]⟩
        | some tokenId =>
          let tr : List Event :=
            [.regFindOne uri, .ledgerMintSubmit rcpt uri did,
             .ledgerOwnerOf (some tokenId)]
          match env.ownerOfCall (some tokenId) with
          | none => ⟨.serverError "Failed to mint object", registry, tr⟩
          | some owner =>
            let newRec : MintRecord := ⟨uri, some tokenId, some did⟩
            if env.insertOneFails then
              ⟨.serverError "Failed to mint object", registry,
                tr ++ [.regInsertOne newRec]⟩
            else
              ⟨.minted txHash did tokenId owner, registry ++ [newRec],
                tr ++ [.regInsertOne newRec]⟩

/-- JS Map.set: when the key is present, overwrite its value in place;
otherwise append the pair. -/
def mapSet (m : List (String × Option String)) (k : String) (v : Option String) :
    List (String × Option String) :=
  if m.any (fun p => p.1 == k) then
    m.map (fun p => if p.1 == k then (k, v) else p)
  else m ++ [(k, v)]

/-- JS Map.has. -/
def mapHas (m : List (String × Option String)) (k : String) : Bool :=
  m.any (fun p => p.1 == k)

/-- The forEach loop building alreadyMintedMap from the documents returned
by the bulk find. -/
def buildAlreadyMinted (docs : List MintRecord) : List (String × Option String) :=
  docs.foldl (fun m r => mapSet m r.tokenURI r.tokenId) []

/-- mintEvents.map of args[2].toString: in JS the whole map throws as soon
as one event lacks argument 2, so the result is all-or-nothing. -/
def mapTokenIds : List LogEntry → Option (List String)
  | [] => some []
  | e :: es =>
    match e.args[2]? with
    | none => none
    | some t =>
      match mapTokenIds es with
      | none => none
      | some ts => some (t :: ts)

/-- Response of POST /mintBatch: 400, the all-already-minted 200 (whose
body carries no minted list), the batch-success 200, or the catch-all 500
with its constant body. -/
inductive BatchResponse where
  | invalidRequest
  | allAlreadyMinted (alreadyMinted : List (String × Option String))
  | batchSuccess (txHash : String) (minted : List MintRecord)
      (alreadyMinted : List (String × Option String))
  | serverError (msg : String)
deriving Repr, DecidableEq

/-- POST /mintBatch.  Validates falsiness of recipient and that tokenURIs
is an array (Option.isNone models the Array.isArray test failing: an empty
array passes it); bulk-finds the registered documents; builds the
alreadyMinted map; filters the input list down to the unregistered URIs,
keeping their order; returns early when nothing is left to mint; otherwise
generates one DID per entry, submits mintBatch, waits, collects the token
ids of the Transfer events, pairs them positionally with the submitted URIs
(an out-of-range index is undefined, i.e. none), bulk-inserts, and
responds.  Every throw is caught by the single catch. -/
def mintBatch (env : Env) (registry : List MintRecord)
    (recipient : Option String) (tokenURIs : Option (List String)) :
    HandlerOut BatchResponse :=
  if isFalsy recipient || tokenURIs.isNone then
    ⟨.invalidRequest, registry, []⟩
  else
    let rcpt := recipient.getD ""
    let uris := tokenURIs.getD []
    let docs := registry.filter (fun r => uris.contains r.tokenURI)
    let amMap := buildAlreadyMinted docs
    let toMint := uris.filter (fun u => !(mapHas amMap u))
    if toMint.isEmpty then
      ⟨.allAlreadyMinted amMap, registry, [.regFind uris]⟩
    else
      let dids := (List.range toMint.length).map env.didGen
      match env.mintBatchCall rcpt toMint dids with
      | .submitFail =>
        ⟨.serverError "Failed to mint batch objects", registry,
          [.regFind uris, .ledgerBatchMintSubmit rcpt toMint dids]⟩
      | .confirmFail _ =>
        ⟨.serverError "Failed to mint batch objects", registry,
          [.regFind uris, .ledgerBatchMintSubmit rcpt toMint dids]⟩
      | .confirmed txHash logs =>
        let events := logs.filter (fun l => l.eventName == "Transfer")
        match mapTokenIds events with
        | none =>
          ⟨.serverError "Failed to mint batch objects", registry,
            [.regFind uris, .ledgerBatchMintSubmit rcpt toMint dids]⟩
        | some tokenIds =>
          let mintObjects := toMint.enum.map
            (fun p => ⟨p.2, tokenIds[p.1]?, dids[p.1]?⟩)
          let tr : List Event :=
            [.regFind uris, .ledgerBatchMintSubmit rcpt toMint dids,
             .regInsertMany mintObjects]
          if env.insertManyFails then
            ⟨.serverError "Failed to mint batch objects", registry, tr⟩
          else
            ⟨.batchSuccess txHash mintObjects amMap, registry ++ mintObjects, tr⟩

/-- Response of POST /transfer. -/
inductive TransferResponse where
  | invalidRequest
  | success (txHash : String)
  | serverError (msg : String)
deriving Repr, DecidableEq

/-- POST /transfer: validates falsiness of the three fields, calls
contract.transferFrom, waits, responds.  Never touches the Registry. -/
def transferHandler (env : Env) (registry : List MintRecord)
    (src dst tokenId : Option String) : HandlerOut TransferResponse :=
  if isFalsy src || isFalsy dst || isFalsy tokenId then
    ⟨.invalidRequest, registry, []⟩
  else
    let s := src.getD ""
    let d := dst.getD ""
    let t := tokenId.getD ""
    match env.transferFromCall s d t with
    | .submitFail =>
      ⟨.serverError "Transfer failed", registry, [.ledgerTransferFrom s d t]⟩
    | .confirmFail _ =>
      ⟨.serverError "Transfer failed", registry, [.ledgerTransferFrom s d t]⟩
    | .confirmed txHash _ =>
      ⟨.success txHash, registry, [.ledgerTransferFrom s d t]⟩

/-- Response of GET /owner/:tokenId. -/
inductive OwnerResponse where
  | success (owner : String)
  | serverError (msg : String)
deriving Repr, DecidableEq

/-- GET /owner/:tokenId: calls contract.ownerOf on the path parameter
(always a string) and responds.  Never touches the Registry. -/
def ownerHandler (env : Env) (registry : List MintRecord)
    (tokenId : String) : HandlerOut OwnerResponse :=
  match env.ownerOfCall (some tokenId) with
  | some o => ⟨.success o, registry, [.ledgerOwnerOf (some tokenId)]⟩
  | none => ⟨.serverError "Failed to fetch owner", registry,
      [.ledgerOwnerOf (some tokenId)]⟩

/-- Response of GET /validateOwner. -/
inductive ValidateResponse where
  | invalidRequest
  | success (owned : Bool)
  | serverError (msg : String)
deriving Repr, DecidableEq

/-- GET /validateOwner: validates falsiness of the two query parameters,
calls contract.isOwner, responds.  Never touches the Registry. -/
def validateOwnerHandler (env : Env) (registry : List MintRecord)
    (claimant tokenId : Option String) : HandlerOut ValidateResponse :=
  if isFalsy claimant || isFalsy tokenId then
    ⟨.invalidRequest, registry, []⟩
  else
    let c := claimant.getD ""
    let t := tokenId.getD ""
    match env.isOwnerCall c t with
    | some b => ⟨.success b, registry, [.ledgerIsOwner c t]⟩
    | none => ⟨.serverError "Failed to validate owner", registry,
        [.ledgerIsOwner c t]⟩

/-- Response of GET /nfts. -/
inductive NftsResponse where
  | success (records : List MintRecord)
deriving Repr, DecidableEq

/-- GET /nfts: reads the whole collection and responds with it.
Never modifies the Registry. -/
def nftsHandler (_env : Env) (registry : List MintRecord) :
    HandlerOut NftsResponse :=
  ⟨.success registry, registry, [.regFindAll]⟩

/-- Does this trace event submit a mint transaction to the Ledger? -/
def isMintSubmission : Event → Bool
  | .ledgerMintSubmit _ _ _ => true
  | .ledgerBatchMintSubmit _ _ _ => true
  | _ => false

/-- Number of mint transaction submissions in a trace. -/
def submitCount (tr : List Event) : Nat :=
  tr.countP isMintSubmission

/-- Does this trace event write to the Registry? -/
def isRegistryWrite : Event → Bool
  | .regInsertOne _ => true
  | .regInsertMany _ => true
  | _ => false

/-- Is this trace event any Ledger call at all? -/
def isLedgerCall : Event → Bool
  | .ledgerMintSubmit _ _ _ => true
  | .ledgerBatchMintSubmit _ _ _ => true
  | .ledgerOwnerOf _ => true
  | .ledgerIsOwner _ _ => true
  | .ledgerTransferFrom _ _ _ => true
  | _ => false

/-- A concrete environment used by the closed evaluations below: single
mint confirms with one Transfer event carrying token id 7, batch mint
fails to submit, ownerOf answers the fixed address, writes succeed. -/
def baseEnv : Env where
  mintObjectCall := fun _ _ _ =>
    .confirmed "0xabc" [⟨"Transfer", ["0x0", "0xA", "7"]⟩]
  mintBatchCall := fun _ _ _ => .submitFail
  ownerOfCall := fun t => match t with
    | some _ => some "0xA"
    | none => none
  isOwnerCall := fun _ _ => some true
  transferFromCall := fun _ _ _ => .confirmed "0xtr" []
  didGen := fun n => "did:mynft:d" ++ toString n
  insertOneFails := false
  insertManyFails := false

/-! ## Helper lemmas -/

lemma isFalsy_some_ne {s : String} (h : s ≠ "") : isFalsy (some s) = false := by
  simpa [isFalsy] using h

/-- A successful mapTokenIds preserves length and is pointwise the
args[2] of the corresponding log entry. -/
lemma mapTokenIds_getElem? {es : List LogEntry} {ts : List String}
    (h : mapTokenIds es = some ts) :
    ts.length = es.length ∧
      ∀ i : Nat, ts[i]? = es[i]?.bind (fun e => e.args[2]?) := by
  induction es generalizing ts with
  | nil =>
    simp only [mapTokenIds, Option.some.injEq] at h
    subst h
    simp
  | cons e es ih =>
    simp only [mapTokenIds] at h
    cases h2 : e.args[2]? with
    | none => rw [h2] at h; simp at h
    | some t =>
      rw [h2] at h
      cases h3 : mapTokenIds es with
      | none => rw [h3] at h; simp at h
      | some ts0 =>
        rw [h3] at h
        simp only [Option.some.injEq] at h
        subst h
        obtain ⟨hl, hg⟩ := ih h3
        refine ⟨by simp [hl], ?_⟩
        intro i
        cases i with
        | zero => simp [h2]
        | succ n => simp [hg n]

/-- Indexing into the positional pairing loop of the batch handler. -/
lemma enum_map_getElem? {β : Type} (l : List String) (f : Nat × String → β) (i : Nat) :
    (l.enum.map f)[i]? = (l[i]?).map (fun u => f (i, u)) := by
  simp only [List.getElem?_map, List.getElem?_enum, Option.map_map]
  rfl

/-- The batch handler on a valid request whose Ledger leg confirms and
whose Transfer events all carry argument 2: full shape of the output.
toMint and dids are given by equations so callers can name them. -/
lemma mintBatch_confirmed_eq (env : Env) (registry : List MintRecord)
    (recipient : String) (uris toMint dids : List String)
    (txh : String) (logs : List LogEntry) (tokenIds : List String)
    (htm : toMint = uris.filter (fun u => !(mapHas (buildAlreadyMinted
      (registry.filter (fun r => uris.contains r.tokenURI))) u)))
    (hdids : dids = (List.range toMint.length).map env.didGen)
    (hrec : recipient ≠ "") (hne : toMint ≠ [])
    (hcall : env.mintBatchCall recipient toMint dids = .confirmed txh logs)
    (hmap : mapTokenIds (logs.filter (fun l => l.eventName == "Transfer")) = some tokenIds)
    (hins : env.insertManyFails = false) :
    mintBatch env registry (some recipient) (some uris) =
      ⟨BatchResponse.batchSuccess txh
          (toMint.enum.map (fun p => ⟨p.2, tokenIds[p.1]?, dids[p.1]?⟩))
          (buildAlreadyMinted (registry.filter (fun r => uris.contains r.tokenURI))),
        registry ++ toMint.enum.map (fun p => ⟨p.2, tokenIds[p.1]?, dids[p.1]?⟩),
        [Event.regFind uris, Event.ledgerBatchMintSubmit recipient toMint dids,
         Event.regInsertMany (toMint.enum.map
           (fun p => ⟨p.2, tokenIds[p.1]?, dids[p.1]?⟩))]⟩ := by
  subst hdids
  subst htm
  rw [← List.isEmpty_eq_false] at hne
  simp only [mintBatch, isFalsy_some_ne hrec, Option.isNone_some, Option.getD_some,
    hne, hcall, hmap, hins, Bool.or_false, Bool.false_or]
  rfl

/-- The batch handler when every input URI is already registered:
early return, no Ledger event in the trace. -/
lemma mintBatch_allMinted_eq (env : Env) (registry : List MintRecord)
    (recipient : String) (uris : List String) (hrec : recipient ≠ "")
    (hempty : uris.filter (fun u => !(mapHas (buildAlreadyMinted
      (registry.filter (fun r => uris.contains r.tokenURI))) u)) = []) :
    mintBatch env registry (some recipient) (some uris) =
      ⟨BatchResponse.allAlreadyMinted (buildAlreadyMinted
          (registry.filter (fun r => uris.contains r.tokenURI))),
        registry, [Event.regFind uris]⟩ := by
  have hisE : (uris.filter (fun u => !(mapHas (buildAlreadyMinted
      (registry.filter (fun r => uris.contains r.tokenURI))) u))).isEmpty = true := by
    rw [List.isEmpty_iff]
    exact hempty
  simp only [mintBatch, isFalsy_some_ne hrec, Option.isNone_some, Option.getD_some,
    Bool.or_false, hisE]
  rfl

/-- The batch handler when the Ledger submission throws. -/
lemma mintBatch_submitFail_eq (env : Env) (registry : List MintRecord)
    (recipient : String) (uris toMint dids : List String)
    (htm : toMint = uris.filter (fun u => !(mapHas (buildAlreadyMinted
      (registry.filter (fun r => uris.contains r.tokenURI))) u)))
    (hdids : dids = (List.range toMint.length).map env.didGen)
    (hrec : recipient ≠ "") (hne : toMint ≠ [])
    (hcall : env.mintBatchCall recipient toMint dids = .submitFail) :
    mintBatch env registry (some recipient) (some uris) =
      ⟨BatchResponse.serverError "Failed to mint batch objects", registry,
        [Event.regFind uris, Event.ledgerBatchMintSubmit recipient toMint dids]⟩ := by
  subst hdids
  subst htm
  rw [← List.isEmpty_eq_false] at hne
  simp only [mintBatch, isFalsy_some_ne hrec, Option.isNone_some, Option.getD_some,
    hne, hcall, Bool.or_false, Bool.false_or]
  rfl

/-- The batch handler when the Ledger confirmation throws. -/
lemma mintBatch_confirmFail_eq (env : Env) (registry : List MintRecord)
    (recipient : String) (uris toMint dids : List String) (h0 : String)
    (htm : toMint = uris.filter (fun u => !(mapHas (buildAlreadyMinted
      (registry.filter (fun r => uris.contains r.tokenURI))) u)))
    (hdids : dids = (List.range toMint.length).map env.didGen)
    (hrec : recipient ≠ "") (hne : toMint ≠ [])
    (hcall : env.mintBatchCall recipient toMint dids = .confirmFail h0) :
    mintBatch env registry (some recipient) (some uris) =
      ⟨BatchResponse.serverError "Failed to mint batch objects", registry,
        [Event.regFind uris, Event.ledgerBatchMintSubmit recipient toMint dids]⟩ := by
  subst hdids
  subst htm
  rw [← List.isEmpty_eq_false] at hne
  simp only [mintBatch, isFalsy_some_ne hrec, Option.isNone_some, Option.getD_some,
    hne, hcall, Bool.or_false, Bool.false_or]
  rfl

/-- The batch handler when the receipt confirms but some Transfer event
lacks argument 2: the collection of token ids throws, nothing is
inserted. -/
lemma mintBatch_badEvents_eq (env : Env) (registry : List MintRecord)
    (recipient : String) (uris toMint dids : List String)
    (txh : String) (logs : List LogEntry)
    (htm : toMint = uris.filter (fun u => !(mapHas (buildAlreadyMinted
      (registry.filter (fun r => uris.contains r.tokenURI))) u)))
    (hdids : dids = (List.range toMint.length).map env.didGen)
    (hrec : recipient ≠ "") (hne : toMint ≠ [])
    (hcall : env.mintBatchCall recipient toMint dids = .confirmed txh logs)
    (hmap : mapTokenIds (logs.filter (fun l => l.eventName == "Transfer")) = none) :
    mintBatch env registry (some recipient) (some uris) =
      ⟨BatchResponse.serverError "Failed to mint batch objects", registry,
        [Event.regFind uris, Event.ledgerBatchMintSubmit recipient toMint dids]⟩ := by
  subst hdids
  subst htm
  rw [← List.isEmpty_eq_false] at hne
  simp only [mintBatch, isFalsy_some_ne hrec, Option.isNone_some, Option.getD_some,
    hne, hcall, hmap, Bool.or_false, Bool.false_or]
  rfl

/-- The batch handler when the bulk insert fails after confirmation. -/
lemma mintBatch_insertFail_eq (env : Env) (registry : List MintRecord)
    (recipient : String) (uris toMint dids : List String)
    (txh : String) (logs : List LogEntry) (tokenIds : List String)
    (htm : toMint = uris.filter (fun u => !(mapHas (buildAlreadyMinted
      (registry.filter (fun r => uris.contains r.tokenURI))) u)))
    (hdids : dids = (List.range toMint.length).map env.didGen)
    (hrec : recipient ≠ "") (hne : toMint ≠ [])
    (hcall : env.mintBatchCall recipient toMint dids = .confirmed txh logs)
    (hmap : mapTokenIds (logs.filter (fun l => l.eventName == "Transfer")) = some tokenIds)
    (hins : env.insertManyFails = true) :
    mintBatch env registry (some recipient) (some uris) =
      ⟨BatchResponse.serverError "Failed to mint batch objects", registry,
        [Event.regFind uris, Event.ledgerBatchMintSubmit recipient toMint dids,
         Event.regInsertMany (toMint.enum.map
           (fun p => ⟨p.2, tokenIds[p.1]?, dids[p.1]?⟩))]⟩ := by
  subst hdids
  subst htm
  rw [← List.isEmpty_eq_false] at hne
  simp only [mintBatch, isFalsy_some_ne hrec, Option.isNone_some, Option.getD_some,
    hne, hcall, hmap, hins, Bool.or_false, Bool.false_or]
  rfl

/-- JS Map.set on an absent key appends the pair. -/
lemma mapSet_of_not_has (m : List (String × Option String)) (k : String)
    (v : Option String) (h : mapHas m k = false) :
    mapSet m k v = m ++ [(k, v)] := by
  have h2 : m.any (fun p => p.1 == k) = false := h
  simp [mapSet, h2]

/-- The forEach Map.set loop, when the document keys are distinct and
disjoint from the accumulator, appends the key-value pairs in order. -/
lemma buildAlreadyMinted_aux (docs : List MintRecord) :
    ∀ m : List (String × Option String),
    (∀ r ∈ docs, mapHas m r.tokenURI = false) →
    (docs.map (fun r => r.tokenURI)).Nodup →
    docs.foldl (fun acc r => mapSet acc r.tokenURI r.tokenId) m =
      m ++ docs.map (fun r => (r.tokenURI, r.tokenId)) := by
  induction docs with
  | nil => intro m _ _; simp
  | cons r rs ih =>
    intro m hdis hnd
    rw [List.map_cons, List.nodup_cons] at hnd
    simp only [List.foldl_cons, List.map_cons]
    rw [mapSet_of_not_has m r.tokenURI r.tokenId (hdis r (List.mem_cons_self r rs))]
    rw [ih (m ++ [(r.tokenURI, r.tokenId)]) ?_ hnd.2]
    · simp
    · intro r2 hr2
      have h1 : mapHas m r2.tokenURI = false := hdis r2 (List.mem_cons_of_mem r hr2)
      have hne : r.tokenURI ≠ r2.tokenURI := by
        intro he
        exact hnd.1 (he ▸ List.mem_map_of_mem (fun x => x.tokenURI) hr2)
      have hb : (r.tokenURI == r2.tokenURI) = false := beq_eq_false_iff_ne.mpr hne
      simp only [mapHas] at h1 ⊢
      simp [List.any_append, hb, h1]

/-- With distinct tokenURIs among the found documents, the alreadyMinted
map is exactly the association list of their tokenURI and tokenId. -/
lemma buildAlreadyMinted_eq (docs : List MintRecord)
    (hnd : (docs.map (fun r => r.tokenURI)).Nodup) :
    buildAlreadyMinted docs = docs.map (fun r => (r.tokenURI, r.tokenId)) := by
  have h := buildAlreadyMinted_aux docs [] (fun r _ => by simp [mapHas]) hnd
  simpa [buildAlreadyMinted] using h

/-- Map.has over the association list of documents is an existence test on
their tokenURIs. -/
lemma mapHas_map_pair (docs : List MintRecord) (u : String) :
    mapHas (docs.map (fun r => (r.tokenURI, r.tokenId))) u =
      docs.any (fun r => r.tokenURI == u) := by
  induction docs with
  | nil => rfl
  | cons r rs ih =>
    simp only [mapHas, List.map_cons, List.any_cons] at ih ⊢
    rw [ih]

/-- For a URI of the request list, testing the filtered (bulk-found)
documents is the same as testing the whole Registry. -/
lemma any_filter_contains (registry : List MintRecord) (uris : List String)
    (u : String) (hu : u ∈ uris) :
    (registry.filter (fun r => uris.contains r.tokenURI)).any
      (fun r => r.tokenURI == u) = registry.any (fun r => r.tokenURI == u) := by
  rw [List.any_filter]
  cases hcase : registry.any (fun r => r.tokenURI == u) with
  | true =>
    obtain ⟨r, hr, hru⟩ := List.any_eq_true.mp hcase
    apply List.any_eq_true.mpr
    refine ⟨r, hr, ?_⟩
    have he : r.tokenURI = u := by simpa using hru
    have hc : uris.contains r.tokenURI = true := by
      rw [he]
      exact List.contains_iff_exists_mem_beq.mpr ⟨u, hu, by simp⟩
    simp [hc, he, hu]
  | false =>
    rw [Bool.eq_false_iff]
    intro hany
    obtain ⟨r, hr, hru⟩ := List.any_eq_true.mp hany
    simp only [Bool.and_eq_true] at hru
    have : registry.any (fun r => r.tokenURI == u) = true :=
      List.any_eq_true.mpr ⟨r, hr, hru.2⟩
    rw [hcase] at this
    exact Bool.false_ne_true this

/-! ## Claim theorems -/

/-- C1: single-mint idempotency.  First part: when the tokenURI is already
in the Registry, mintOne performs exactly a findOne and an ownerOf call —
so no mint submission — leaves the Registry unchanged, and when the
Ledger answers the owner query it returns the already-minted outcome with
the stored tokenId.  Second part: on an unregistered tokenURI whose mint
succeeds, the first call submits exactly one mint transaction and returns
the Ledger-assigned tokenId, and a second call in strict sequence returns
the same tokenId as already minted with no further submission. -/
theorem c1_single_mint_idempotent (env : Env) (registry : List MintRecord)
    (recipient uri : String) (hrec : recipient ≠ "") (huri : uri ≠ "") :
    (∀ r0, registry.find? (fun r => r.tokenURI == uri) = some r0 →
      (mintOne env registry (some recipient) (some uri)).trace =
        [Event.regFindOne uri, Event.ledgerOwnerOf r0.tokenId] ∧
      submitCount (mintOne env registry (some recipient) (some uri)).trace = 0 ∧
      (mintOne env registry (some recipient) (some uri)).registry = registry ∧
      (∀ o, env.ownerOfCall r0.tokenId = some o →
        (mintOne env registry (some recipient) (some uri)).response =
          MintResponse.alreadyMinted r0.tokenId o)) ∧
    (registry.find? (fun r => r.tokenURI == uri) = none →
      ∀ txh logs t o,
        env.mintObjectCall recipient uri (env.didGen 0) = .confirmed txh logs →
        extractTokenId logs = some t →
        env.ownerOfCall (some t) = some o →
        env.insertOneFails = false →
        (mintOne env registry (some recipient) (some uri)).response =
          MintResponse.minted txh (env.didGen 0) t o ∧
        submitCount (mintOne env registry (some recipient) (some uri)).trace = 1 ∧
        (mintOne env (mintOne env registry (some recipient) (some uri)).registry
            (some recipient) (some uri)).response =
          MintResponse.alreadyMinted (some t) o ∧
        submitCount (mintOne env (mintOne env registry (some recipient) (some uri)).registry
            (some recipient) (some uri)).trace = 0) := by
  constructor
  · intro r0 hfind
    refine ⟨?_, ?_, ?_, ?_⟩
    · cases h : env.ownerOfCall r0.tokenId <;>
        simp [mintOne, isFalsy_some_ne hrec, isFalsy_some_ne huri, hfind, h]
    · cases h : env.ownerOfCall r0.tokenId <;>
        simp [mintOne, isFalsy_some_ne hrec, isFalsy_some_ne huri, hfind, h,
          submitCount, isMintSubmission]
    · cases h : env.ownerOfCall r0.tokenId <;>
        simp [mintOne, isFalsy_some_ne hrec, isFalsy_some_ne huri, hfind, h]
    · intro o ho
      simp [mintOne, isFalsy_some_ne hrec, isFalsy_some_ne huri, hfind, ho]
  · intro hnone txh logs t o h1 h2 h3 h4
    have hout : mintOne env registry (some recipient) (some uri) =
        ⟨MintResponse.minted txh (env.didGen 0) t o,
          registry ++ [⟨uri, some t, some (env.didGen 0)⟩],
          [Event.regFindOne uri,
           Event.ledgerMintSubmit recipient uri (env.didGen 0),
           Event.ledgerOwnerOf (some t),
           Event.regInsertOne ⟨uri, some t, some (env.didGen 0)⟩]⟩ := by
      simp [mintOne, isFalsy_some_ne hrec, isFalsy_some_ne huri, hnone, h1, h2, h3, h4]
    rw [hout]
    have hfind2 : (registry ++ [(⟨uri, some t, some (env.didGen 0)⟩ : MintRecord)]).find?
        (fun r => r.tokenURI == uri) =
        some ⟨uri, some t, some (env.didGen 0)⟩ := by
      rw [List.find?_append, hnone]
      simp [List.find?_cons]
    refine ⟨rfl, ?_, ?_, ?_⟩
    · simp [submitCount, isMintSubmission]
    · simp [mintOne, isFalsy_some_ne hrec, isFalsy_some_ne huri, hfind2, h3]
    · simp [mintOne, isFalsy_some_ne hrec, isFalsy_some_ne huri, hfind2, h3,
        submitCount, isMintSubmission]

/-- C1 witness: with the base environment, minting u1 on the empty Registry
returns tokenId 7 with one submission, a stored record makes the
already-minted path answer with the stored tokenId, and the sequential
second call returns the same tokenId 7 with no submission. -/
theorem c1_witness :
    (mintOne baseEnv [⟨"u0", some "3", some "d"⟩] (some "0xA") (some "u0")).response =
      MintResponse.alreadyMinted (some "3") "0xA" ∧
    (mintOne baseEnv [] (some "0xA") (some "u1")).response =
      MintResponse.minted "0xabc" "did:mynft:d0" "7" "0xA" ∧
    submitCount (mintOne baseEnv [] (some "0xA") (some "u1")).trace = 1 ∧
    (mintOne baseEnv (mintOne baseEnv [] (some "0xA") (some "u1")).registry
        (some "0xA") (some "u1")).response =
      MintResponse.alreadyMinted (some "7") "0xA" ∧
    submitCount (mintOne baseEnv (mintOne baseEnv [] (some "0xA") (some "u1")).registry
        (some "0xA") (some "u1")).trace = 0 := by
  have hA := (c1_single_mint_idempotent baseEnv [⟨"u0", some "3", some "d"⟩]
      "0xA" "u0" (by decide) (by decide)).1 ⟨"u0", some "3", some "d"⟩ (by rfl)
  have hB := (c1_single_mint_idempotent baseEnv [] "0xA" "u1"
      (by decide) (by decide)).2 rfl "0xabc"
      [⟨"Transfer", ["0x0", "0xA", "7"]⟩] "7" "0xA" rfl rfl rfl rfl
  exact ⟨hA.2.2.2 "0xA" rfl, hB.1, hB.2.1, hB.2.2.1, hB.2.2.2⟩

/-- C4: no record on failure.  For a tokenURI absent from the Registry, when
the Ledger submission fails, the confirmation fails, or the confirmed
receipt lacks a usable Transfer event, mintOne leaves the Registry exactly
as it was (in particular no MintRecord for that tokenURI is written) and
responds with the catch-all error. -/
theorem c4_no_record_on_failure (env : Env) (registry : List MintRecord)
    (recipient uri : String) (hrec : recipient ≠ "") (huri : uri ≠ "")
    (habsent : registry.find? (fun r => r.tokenURI == uri) = none)
    (hfail : env.mintObjectCall recipient uri (env.didGen 0) = .submitFail ∨
      (∃ h, env.mintObjectCall recipient uri (env.didGen 0) = .confirmFail h) ∨
      (∃ h logs, env.mintObjectCall recipient uri (env.didGen 0) = .confirmed h logs ∧
        extractTokenId logs = none)) :
    (mintOne env registry (some recipient) (some uri)).registry = registry ∧
    (mintOne env registry (some recipient) (some uri)).response =
      MintResponse.serverError "Failed to mint object" := by
  obtain hf | ⟨h, hf⟩ | ⟨h, logs, hf, hex⟩ := hfail
  · simp [mintOne, isFalsy_some_ne hrec, isFalsy_some_ne huri, habsent, hf]
  · simp [mintOne, isFalsy_some_ne hrec, isFalsy_some_ne huri, habsent, hf]
  · simp [mintOne, isFalsy_some_ne hrec, isFalsy_some_ne huri, habsent, hf, hex]

/-- C4 witness: a concrete absent tokenURI whose Ledger submission fails
leaves the empty Registry empty and yields the catch-all error. -/
theorem c4_witness :
    (mintOne { baseEnv with mintObjectCall := fun _ _ _ => .submitFail }
        [] (some "0xA") (some "u1")).registry = [] ∧
    (mintOne { baseEnv with mintObjectCall := fun _ _ _ => .submitFail }
        [] (some "0xA") (some "u1")).response =
      MintResponse.serverError "Failed to mint object" :=
  c4_no_record_on_failure { baseEnv with mintObjectCall := fun _ _ _ => .submitFail }
    [] "0xA" "u1" (by decide) (by decide) (by rfl) (Or.inl rfl)

/-- C2: batch-mint idempotency and partition.  For any Registry with
distinct tokenURIs: (1) any Ledger batch submission the handler makes is
for exactly the unregistered subset of the input, in original relative
order; (2) and (3) whichever 200 response is returned, its alreadyMinted
map is exactly the registered subset of the input with the stored
tokenIds; (4) when no input URI is unregistered the handler returns
immediately with the full alreadyMinted map, no new record, and a trace
consisting solely of the Registry bulk find — no Ledger call at all (the
response of that early return carries no minted list). -/
theorem c2_batch_idempotency (env : Env) (registry : List MintRecord)
    (recipient : String) (uris : List String) (hrec : recipient ≠ "")
    (hnd : (registry.map (fun r => r.tokenURI)).Nodup) :
    (∀ rc t ds, Event.ledgerBatchMintSubmit rc t ds ∈
        (mintBatch env registry (some recipient) (some uris)).trace →
      rc = recipient ∧
      t = uris.filter (fun u => !(registry.any (fun r => r.tokenURI == u)))) ∧
    (∀ am, (mintBatch env registry (some recipient) (some uris)).response =
        BatchResponse.allAlreadyMinted am →
      am = (registry.filter (fun r => uris.contains r.tokenURI)).map
        (fun r => (r.tokenURI, r.tokenId))) ∧
    (∀ txh minted am, (mintBatch env registry (some recipient) (some uris)).response =
        BatchResponse.batchSuccess txh minted am →
      am = (registry.filter (fun r => uris.contains r.tokenURI)).map
        (fun r => (r.tokenURI, r.tokenId))) ∧
    (uris.filter (fun u => !(registry.any (fun r => r.tokenURI == u))) = [] →
      (mintBatch env registry (some recipient) (some uris)).response =
        BatchResponse.allAlreadyMinted
          ((registry.filter (fun r => uris.contains r.tokenURI)).map
            (fun r => (r.tokenURI, r.tokenId))) ∧
      (mintBatch env registry (some recipient) (some uris)).registry = registry ∧
      (mintBatch env registry (some recipient) (some uris)).trace =
        [Event.regFind uris]) := by
  have hdnd : ((registry.filter (fun r => uris.contains r.tokenURI)).map
      (fun r => r.tokenURI)).Nodup :=
    List.Nodup.sublist (List.Sublist.map _ (List.filter_sublist registry)) hnd
  have hbm : buildAlreadyMinted (registry.filter (fun r => uris.contains r.tokenURI)) =
      (registry.filter (fun r => uris.contains r.tokenURI)).map
        (fun r => (r.tokenURI, r.tokenId)) :=
    buildAlreadyMinted_eq _ hdnd
  have htm : uris.filter (fun u => !(mapHas (buildAlreadyMinted
      (registry.filter (fun r => uris.contains r.tokenURI))) u)) =
      uris.filter (fun u => !(registry.any (fun r => r.tokenURI == u))) := by
    rw [hbm]
    apply List.filter_congr
    intro u hu
    rw [mapHas_map_pair, any_filter_contains registry uris u hu]
  by_cases hisE : uris.filter (fun u => !(mapHas (buildAlreadyMinted
      (registry.filter (fun r => uris.contains r.tokenURI))) u)) = []
  · rw [mintBatch_allMinted_eq env registry recipient uris hrec hisE]
    refine ⟨?_, ?_, ?_, ?_⟩
    · intro rc t ds hmem
      simp at hmem
    · intro am ham
      rw [hbm] at ham
      simp only [BatchResponse.allAlreadyMinted.injEq] at ham
      exact ham.symm
    · intro txh minted am ham
      simp at ham
    · intro _
      exact ⟨by rw [hbm], rfl, rfl⟩
  · cases hcall : env.mintBatchCall recipient
        (uris.filter (fun u => !(mapHas (buildAlreadyMinted
          (registry.filter (fun r => uris.contains r.tokenURI))) u)))
        ((List.range (uris.filter (fun u => !(mapHas (buildAlreadyMinted
          (registry.filter (fun r => uris.contains r.tokenURI))) u))).length).map
          env.didGen) with
    | submitFail =>
      rw [mintBatch_submitFail_eq env registry recipient uris _ _
        rfl rfl hrec hisE hcall]
      refine ⟨?_, ?_, ?_, ?_⟩
      · intro rc t ds hmem
        simp only [List.mem_cons, List.mem_singleton] at hmem
        rcases hmem with h | h | h
        · exact absurd h (by simp)
        · rw [Event.ledgerBatchMintSubmit.injEq] at h
          exact ⟨h.1, h.2.1.trans htm⟩
        · simp at h
      · intro am ham
        simp at ham
      · intro txh minted am ham
        simp at ham
      · intro h4
        exact absurd (htm.trans h4) hisE
    | confirmFail h0 =>
      rw [mintBatch_confirmFail_eq env registry recipient uris _ _ h0
        rfl rfl hrec hisE hcall]
      refine ⟨?_, ?_, ?_, ?_⟩
      · intro rc t ds hmem
        simp only [List.mem_cons, List.mem_singleton] at hmem
        rcases hmem with h | h | h
        · exact absurd h (by simp)
        · rw [Event.ledgerBatchMintSubmit.injEq] at h
          exact ⟨h.1, h.2.1.trans htm⟩
        · simp at h
      · intro am ham
        simp at ham
      · intro txh minted am ham
        simp at ham
      · intro h4
        exact absurd (htm.trans h4) hisE
    | confirmed txh logs =>
      cases hmapc : mapTokenIds (logs.filter (fun l => l.eventName == "Transfer")) with
      | none =>
        rw [mintBatch_badEvents_eq env registry recipient uris _ _ txh logs
          rfl rfl hrec hisE hcall hmapc]
        refine ⟨?_, ?_, ?_, ?_⟩
        · intro rc t ds hmem
          simp only [List.mem_cons, List.mem_singleton] at hmem
          rcases hmem with h | h | h
          · exact absurd h (by simp)
          · rw [Event.ledgerBatchMintSubmit.injEq] at h
            exact ⟨h.1, h.2.1.trans htm⟩
          · simp at h
        · intro am ham
          simp at ham
        · intro txh2 minted am ham
          simp at ham
        · intro h4
          exact absurd (htm.trans h4) hisE
      | some tokenIds =>
        cases hins : env.insertManyFails with
        | true =>
          rw [mintBatch_insertFail_eq env registry recipient uris _ _ txh logs
            tokenIds rfl rfl hrec hisE hcall hmapc hins]
          refine ⟨?_, ?_, ?_, ?_⟩
          · intro rc t ds hmem
            simp only [List.mem_cons, List.mem_singleton] at hmem
            rcases hmem with h | h | h | h
            · exact absurd h (by simp)
            · rw [Event.ledgerBatchMintSubmit.injEq] at h
              exact ⟨h.1, h.2.1.trans htm⟩
            · simp at h
            · simp at h
          · intro am ham
            simp at ham
          · intro txh2 minted am ham
            simp at ham
          · intro h4
            exact absurd (htm.trans h4) hisE
        | false =>
          rw [mintBatch_confirmed_eq env registry recipient uris _ _ txh logs
            tokenIds rfl rfl hrec hisE hcall hmapc hins]
          refine ⟨?_, ?_, ?_, ?_⟩
          · intro rc t ds hmem
            simp only [List.mem_cons, List.mem_singleton] at hmem
            rcases hmem with h | h | h | h
            · exact absurd h (by simp)
            · rw [Event.ledgerBatchMintSubmit.injEq] at h
              exact ⟨h.1, h.2.1.trans htm⟩
            · simp at h
            · simp at h
          · intro am ham
            simp at ham
          · intro txh2 minted am ham
            rw [hbm] at ham
            simp only [BatchResponse.batchSuccess.injEq] at ham
            exact ham.2.2.symm
          · intro h4
            exact absurd (htm.trans h4) hisE

/-- C2 witness: a one-element input list whose URI is already registered:
the handler returns the full alreadyMinted map with the stored tokenId,
leaves the Registry unchanged, and its trace is only the Registry bulk
find. -/
theorem c2_witness :
    (mintBatch baseEnv [⟨"u1", some "3", some "d"⟩]
        (some "0xA") (some ["u1"])).response =
      BatchResponse.allAlreadyMinted [("u1", some "3")] ∧
    (mintBatch baseEnv [⟨"u1", some "3", some "d"⟩]
        (some "0xA") (some ["u1"])).registry = [⟨"u1", some "3", some "d"⟩] ∧
    (mintBatch baseEnv [⟨"u1", some "3", some "d"⟩]
        (some "0xA") (some ["u1"])).trace = [Event.regFind ["u1"]] := by
  have h := (c2_batch_idempotency baseEnv [⟨"u1", some "3", some "d"⟩]
      "0xA" ["u1"] (by decide) (by decide)).2.2.2 (by decide)
  exact ⟨h.1.trans (by rfl), h.2.1, h.2.2⟩

/-- C3: positional mapping correctness.  When a batch receipt confirms
with Transfer events matching the submitted unregistered URIs in length
and order, the minted records are the positional pairing, and the record
at position i pairs the ith submitted URI with the token id carried as
argument 2 of the ith Transfer event and with the ith generated DID;
the Registry gains exactly those records. -/
theorem c3_positional_mapping (env : Env) (registry : List MintRecord)
    (recipient : String) (uris toMint dids : List String)
    (txh : String) (logs : List LogEntry) (tokenIds : List String)
    (htm : toMint = uris.filter (fun u => !(mapHas (buildAlreadyMinted
      (registry.filter (fun r => uris.contains r.tokenURI))) u)))
    (hdids : dids = (List.range toMint.length).map env.didGen)
    (hrec : recipient ≠ "") (hne : toMint ≠ [])
    (hcall : env.mintBatchCall recipient toMint dids = .confirmed txh logs)
    (hmap : mapTokenIds (logs.filter (fun l => l.eventName == "Transfer")) = some tokenIds)
    (hlen : (logs.filter (fun l => l.eventName == "Transfer")).length = toMint.length)
    (hins : env.insertManyFails = false) :
    (mintBatch env registry (some recipient) (some uris)).response =
      BatchResponse.batchSuccess txh
        (toMint.enum.map (fun p => ⟨p.2, tokenIds[p.1]?, dids[p.1]?⟩))
        (buildAlreadyMinted (registry.filter (fun r => uris.contains r.tokenURI))) ∧
    (mintBatch env registry (some recipient) (some uris)).registry =
      registry ++ toMint.enum.map (fun p => ⟨p.2, tokenIds[p.1]?, dids[p.1]?⟩) ∧
    (toMint.enum.map (fun p => (⟨p.2, tokenIds[p.1]?, dids[p.1]?⟩ : MintRecord))).length
      = toMint.length ∧
    (∀ (i : Nat) u ev, toMint[i]? = some u →
      (logs.filter (fun l => l.eventName == "Transfer"))[i]? = some ev →
      (toMint.enum.map (fun p => (⟨p.2, tokenIds[p.1]?, dids[p.1]?⟩ : MintRecord)))[i]? =
        some ⟨u, ev.args[2]?, some (env.didGen i)⟩) := by
  have hshape := mintBatch_confirmed_eq env registry recipient uris toMint dids
    txh logs tokenIds htm hdids hrec hne hcall hmap hins
  refine ⟨by rw [hshape], by rw [hshape], by simp [List.enum_length], ?_⟩
  intro i u ev hu hev
  obtain ⟨hl2, hget⟩ := mapTokenIds_getElem? hmap
  have hi : i < toMint.length := by
    rcases List.getElem?_eq_some_iff.mp hu with ⟨h, _⟩
    exact h
  have hd : dids[i]? = some (env.didGen i) := by
    subst hdids
    simp [List.getElem?_map, List.getElem?_range hi]
  rw [enum_map_getElem?, hu]
  have ht : tokenIds[i]? = ev.args[2]? := by
    rw [hget i, hev]
    rfl
  simp [ht, hd]

/-- C3 witness: one unregistered URI, one Transfer event with token id 9:
the single minted record pairs that URI with token id 9 and the first DID,
and the Registry gains exactly that record. -/
theorem c3_witness :
    (mintBatch { baseEnv with mintBatchCall := fun _ _ _ => (TxOutcome.confirmed "0xb"
          [⟨"Transfer", ["0x0", "0xA", "9"]⟩]) }
        [] (some "0xA") (some ["u2"])).response =
      BatchResponse.batchSuccess "0xb" [⟨"u2", some "9", some "did:mynft:d0"⟩] [] ∧
    (mintBatch { baseEnv with mintBatchCall := fun _ _ _ => (TxOutcome.confirmed "0xb"
          [⟨"Transfer", ["0x0", "0xA", "9"]⟩]) }
        [] (some "0xA") (some ["u2"])).registry =
      [⟨"u2", some "9", some "did:mynft:d0"⟩] := by
  have h := c3_positional_mapping
    { baseEnv with mintBatchCall := fun _ _ _ => (TxOutcome.confirmed "0xb"
        [⟨"Transfer", ["0x0", "0xA", "9"]⟩]) }
    [] "0xA" ["u2"] ["u2"] ["did:mynft:d0"] "0xb"
    [⟨"Transfer", ["0x0", "0xA", "9"]⟩] ["9"]
    (by rfl) (by rfl) (by decide) (by decide) (by rfl) (by rfl) (by rfl) (by rfl)
  exact ⟨h.1.trans (by rfl), h.2.1.trans (by rfl)⟩

/-- C5: the claim asks for a distinct partial-failure error carrying the
confirmed tokenId and transactionHash.  The code has a single catch that
responds 500 with the constant body.  Here a mintOne whose Ledger leg
confirms (tokenId 7, hash 0xabc) but whose Registry insert fails produces
exactly the same response as a mintOne whose Ledger submission fails:
the generic error, with no tokenId and no transactionHash. -/
theorem c5_partial_failure_not_surfaced :
    (mintOne { baseEnv with insertOneFails := true }
        [] (some "0xA") (some "u1")).response =
      MintResponse.serverError "Failed to mint object" ∧
    (mintOne { baseEnv with mintObjectCall := fun _ _ _ => .submitFail }
        [] (some "0xA") (some "u1")).response =
      MintResponse.serverError "Failed to mint object" := by
  constructor <;> rfl

/-- C6: the uniqueness invariant fails.  One mintBatch call whose input
list repeats the same unregistered tokenURI inserts one MintRecord per
occurrence: after mintBatch on the list [u, u] against the empty Registry,
two MintRecords with tokenURI u exist. -/
theorem c6_duplicate_batch_breaks_uniqueness :
    ((mintBatch
        { baseEnv with mintBatchCall := fun _ _ _ => (TxOutcome.confirmed "0xb"
            [⟨"Transfer", ["0x0", "0xA", "1"]⟩, ⟨"Transfer", ["0x0", "0xA", "2"]⟩]) }
        [] (some "0xA") (some ["u", "u"])).registry.countP
      (fun r => r.tokenURI == "u")) = 2 := by
  rfl

/-- C7: the claim asks for an atomic insert-if-absent Registry operation
before the Ledger submission.  The code submits the mint first and performs
a plain insert only after confirmation: the trace of a successful mintOne
on an unregistered tokenURI is findOne, then the mint submission, then the
owner query, then the insert — the Registry write comes after the Ledger
submission, and no Registry write precedes it. -/
theorem c7_insert_happens_after_submit :
    (mintOne baseEnv [] (some "0xA") (some "u1")).trace =
      [Event.regFindOne "u1",
       Event.ledgerMintSubmit "0xA" "u1" "did:mynft:d0",
       Event.ledgerOwnerOf (some "7"),
       Event.regInsertOne ⟨"u1", some "7", some "did:mynft:d0"⟩] := by
  rfl

/-- C8 counterexample: a mintBatch request whose tokenURIs list is present
but empty is not rejected — the handler performs a Registry bulk find and
responds 200 with the empty alreadyMinted map, not with the 400
invalid-request response the claim requires. -/
theorem c8_counterexample_empty_list_not_rejected :
    (mintBatch baseEnv [] (some "0xA") (some [])).response =
      BatchResponse.allAlreadyMinted [] ∧
    (mintBatch baseEnv [] (some "0xA") (some [])).trace = [Event.regFind []] := by
  constructor <;> rfl

/-- C9 counterexample: no event-count validation exists.  A confirmed batch
receipt with zero Transfer events for one submitted tokenURI still persists
a MintRecord, and its tokenId is undefined (none): the out-of-range
positional index is dereferenced to undefined rather than rejected. -/
theorem c9_counterexample_undefined_tokenId_persisted :
    (mintBatch { baseEnv with mintBatchCall := fun _ _ _ => .confirmed "0xb" [] }
        [] (some "0xA") (some ["u1"])).registry =
      [⟨"u1", none, some "did:mynft:d0"⟩] := by
  rfl

/-- C9 amended: mintBatch performs no event-count validation.  Even when
the confirmed receipt carries fewer Transfer events than submitted URIs,
the handler still succeeds and persists one record per submitted URI, and
every record whose position falls beyond the extracted token ids carries
an undefined (none) tokenId — the out-of-range positional index is
dereferenced to undefined, never rejected. -/
theorem c9_no_event_count_validation (env : Env) (registry : List MintRecord)
    (recipient : String) (uris toMint dids : List String)
    (txh : String) (logs : List LogEntry) (tokenIds : List String)
    (htm : toMint = uris.filter (fun u => !(mapHas (buildAlreadyMinted
      (registry.filter (fun r => uris.contains r.tokenURI))) u)))
    (hdids : dids = (List.range toMint.length).map env.didGen)
    (hrec : recipient ≠ "") (hne : toMint ≠ [])
    (hcall : env.mintBatchCall recipient toMint dids = .confirmed txh logs)
    (hmap : mapTokenIds (logs.filter (fun l => l.eventName == "Transfer")) = some tokenIds)
    (hins : env.insertManyFails = false) :
    (mintBatch env registry (some recipient) (some uris)).response =
      BatchResponse.batchSuccess txh
        (toMint.enum.map (fun p => ⟨p.2, tokenIds[p.1]?, dids[p.1]?⟩))
        (buildAlreadyMinted (registry.filter (fun r => uris.contains r.tokenURI))) ∧
    (mintBatch env registry (some recipient) (some uris)).registry =
      registry ++ toMint.enum.map (fun p => ⟨p.2, tokenIds[p.1]?, dids[p.1]?⟩) ∧
    (∀ (i : Nat) u, toMint[i]? = some u → tokenIds.length ≤ i →
      (toMint.enum.map (fun p => (⟨p.2, tokenIds[p.1]?, dids[p.1]?⟩ : MintRecord)))[i]? =
        some ⟨u, none, some (env.didGen i)⟩) := by
  have hshape := mintBatch_confirmed_eq env registry recipient uris toMint dids
    txh logs tokenIds htm hdids hrec hne hcall hmap hins
  refine ⟨by rw [hshape], by rw [hshape], ?_⟩
  intro i u hu hge
  have hi : i < toMint.length := by
    rcases List.getElem?_eq_some_iff.mp hu with ⟨h, _⟩
    exact h
  have hd : dids[i]? = some (env.didGen i) := by
    subst hdids
    simp [List.getElem?_map, List.getElem?_range hi]
  have ht : tokenIds[i]? = none := List.getElem?_eq_none hge
  rw [enum_map_getElem?, hu]
  simp [ht, hd]

/-- C9 amended witness: one submitted URI, a confirmed receipt with zero
Transfer events: the batch still succeeds and the persisted record has
tokenId none. -/
theorem c9_witness :
    (mintBatch { baseEnv with mintBatchCall := fun _ _ _ => (TxOutcome.confirmed "0xb" []) }
        [] (some "0xA") (some ["u1"])).response =
      BatchResponse.batchSuccess "0xb" [⟨"u1", none, some "did:mynft:d0"⟩] [] := by
  have h := c9_no_event_count_validation
    { baseEnv with mintBatchCall := fun _ _ _ => (TxOutcome.confirmed "0xb" []) }
    [] "0xA" ["u1"] ["u1"] ["did:mynft:d0"] "0xb" [] []
    (by rfl) (by rfl) (by decide) (by decide) (by rfl) (by rfl) (by rfl)
  exact h.1.trans (by rfl)

/-- C8 amended: mintOne rejects a missing or empty recipient or tokenURI
before any external call with the invalid-request response; mintBatch
rejects a missing or empty recipient, or a missing (non-array) tokenURIs
field, before any external call; but a present-and-empty tokenURIs list is
not rejected: the handler performs the Registry bulk find and responds 200
with the empty alreadyMinted map. -/
theorem c8_validation_before_external_calls (env : Env) (registry : List MintRecord) :
    (∀ recipient tokenURI, (isFalsy recipient || isFalsy tokenURI) = true →
      mintOne env registry recipient tokenURI =
        ⟨MintResponse.invalidRequest, registry, []⟩) ∧
    (∀ recipient tokenURIs, (isFalsy recipient || Option.isNone tokenURIs) = true →
      mintBatch env registry recipient tokenURIs =
        ⟨BatchResponse.invalidRequest, registry, []⟩) ∧
    (∀ recipient, recipient ≠ "" →
      mintBatch env registry (some recipient) (some []) =
        ⟨BatchResponse.allAlreadyMinted (buildAlreadyMinted
            (registry.filter (fun r => List.contains [] r.tokenURI))),
          registry, [Event.regFind []]⟩) := by
  refine ⟨?_, ?_, ?_⟩
  · intro recipient tokenURI h
    simp [mintOne, h]
  · intro recipient tokenURIs h
    simp [mintBatch, h]
  · intro recipient h
    simp [mintBatch, isFalsy_some_ne h]

/-- C8 witness: missing tokenURI and empty recipient are rejected with no
external call; the empty batch list is accepted and performs a Registry
find. -/
theorem c8_witness :
    mintOne baseEnv [] (some "0xA") none =
      ⟨MintResponse.invalidRequest, [], []⟩ ∧
    mintBatch baseEnv [] (some "") (some ["u1"]) =
      ⟨BatchResponse.invalidRequest, [], []⟩ ∧
    mintBatch baseEnv [] (some "0xA") (some []) =
      ⟨BatchResponse.allAlreadyMinted [], [], [Event.regFind []]⟩ := by
  have h := c8_validation_before_external_calls baseEnv []
  exact ⟨h.1 (some "0xA") none (by rfl), h.2.1 (some "") (some ["u1"]) (by rfl),
    (h.2.2 "0xA" (by decide)).trans (by rfl)⟩

/-- C10: Registry write confinement.  The transfer, owner-lookup,
owner-validation and list-all handlers return the Registry exactly as it
was and their traces contain no Registry write, whatever the environment,
Registry contents and request fields. -/
theorem c10_registry_write_confinement (env : Env) (registry : List MintRecord)
    (src dst tid claimant vtid : Option String) (otid : String) :
    (transferHandler env registry src dst tid).registry = registry ∧
    (transferHandler env registry src dst tid).trace.all
      (fun e => !isRegistryWrite e) = true ∧
    (ownerHandler env registry otid).registry = registry ∧
    (ownerHandler env registry otid).trace.all
      (fun e => !isRegistryWrite e) = true ∧
    (validateOwnerHandler env registry claimant vtid).registry = registry ∧
    (validateOwnerHandler env registry claimant vtid).trace.all
      (fun e => !isRegistryWrite e) = true ∧
    (nftsHandler env registry).registry = registry ∧
    (nftsHandler env registry).trace.all
      (fun e => !isRegistryWrite e) = true := by
  refine ⟨?_, ?_, ?_, ?_, ?_, ?_, rfl, rfl⟩ <;>
    · simp only [transferHandler, ownerHandler, validateOwnerHandler]
      split <;> (try rfl) <;> split <;> rfl

end NftServer
